import Mathlib

/-!
Verification of the Fusabi core engine (compiler, chunk model, serialization,
async stdlib, async runtime, map stdlib) against its specification.

The Rust sources embedded here:
  * `crates/fusabi-vm/src/chunk.rs`        — `SourceSpan`, `Chunk`, chunk operations
  * `crates/fusabi-vm/src/lib.rs`          — `serialize_chunk` / `deserialize_chunk`
  * `crates/fsrs-frontend/src/compiler.rs` — the bytecode compiler
  * `crates/fusabi-vm/src/stdlib/async_ops.rs` — async builder operations, `Async.parallel`
  * `crates/fusabi-vm/src/async_runtime.rs` — `poll`, `block_on`
  * `crates/fusabi-vm/src/stdlib/map.rs`   — `map_add`, `map_remove`

`value.rs`, `instruction.rs` and `vm.rs` are not part of the provided sources,
so the `Value`, `Instruction` and `VmError` types are modelled from the
specification (data-model table, stable opcode list, error taxonomy), and the
bincode body encoding used by chunk serialization is modelled from the spec's
description of the `.fzb` format as a self-describing length-prefixed encoding.
-/

namespace Fusabi

/-- Modelled from the spec: the runtime `Value` type (`value.rs` is not in the
provided sources).  Tagged sum per the spec's data-model table.  Shared mutable
heap objects (`Map`, `Closure`) are references (`Arc` in the source), modelled
as indices into an explicit store; `Float` is 64-bit IEEE-754 compared by bit
pattern, modelled by its bit pattern; `Async` wraps either a task handle or a
pre-computed value (`AsyncValue` in `async_types.rs`). -/
inductive Value where
  | Int (n : Int)
  | Float (bits : Nat)
  | Bool (b : Bool)
  | Str (s : String)
  | Unit
  | Nil
  | Cons (head tail : Value)
  | Tuple (items : List Value)
  | Record (fields : List (String × Value))
  | Variant (type_name variant_name : String) (fields : List Value)
  | Map (ref : Nat)
  | Closure (ref : Nat)
  | NativeFn (name : String) (arity : Nat) (args : List Value)
  | AsyncTask (id : Nat)
  | AsyncVal (v : Value)

/-- Modelled from the spec: `Value::type_name` returns a stable string used in
type-mismatch diagnostics (`value.rs` is not in the provided sources). -/
def Value.type_name : Value → String
  | .Int _ => "int"
  | .Float _ => "float"
  | .Bool _ => "bool"
  | .Str _ => "string"
  | .Unit => "unit"
  | .Nil => "list"
  | .Cons _ _ => "list"
  | .Tuple _ => "tuple"
  | .Record _ => "record"
  | .Variant _ _ _ => "variant"
  | .Map _ => "map"
  | .Closure _ => "closure"
  | .NativeFn _ _ _ => "native function"
  | .AsyncTask _ => "async"
  | .AsyncVal _ => "async"

/-- Modelled from the spec: `Value::as_str` projector (used by `map.rs`;
`value.rs` is not in the provided sources). -/
def Value.as_str : Value → Option String
  | .Str s => some s
  | _ => none

/-- Modelled from the spec: `Value::as_int` projector (used by `async_ops.rs`;
`value.rs` is not in the provided sources). -/
def Value.as_int : Value → Option ℤ
  | .Int n => some n
  | _ => none

/-- Modelled from the spec: `Value::vec_to_cons` builds a cons-list from a
vector (`value.rs` is not in the provided sources; the spec requires
`cons_to_vec (vec_to_cons xs) = xs`). -/
def Value.vec_to_cons : List Value → Value
  | [] => .Nil
  | v :: vs => .Cons v (Value.vec_to_cons vs)

/-- Modelled from the spec: `Value::list_to_vec` walks a `Cons`/`Nil` chain and
fails on a non-list tail (`value.rs` is not in the provided sources). -/
def Value.list_to_vec : Value → Option (List Value)
  | .Nil => some []
  | .Cons h t => (Value.list_to_vec t).map (fun vs => h :: vs)
  | _ => none

/-- Modelled from the spec: a `MakeClosure` capture descriptor — either a
local-slot reference or an index into the current closure's upvalues. -/
inductive Capture where
  | localSlot (slot : Nat)
  | upvalueIdx (idx : Nat)

/-- Modelled from the spec: the stable opcode list (`instruction.rs` is not in
the provided sources).  Operand widths: `LoadConst` is u16, `LoadLocal` and
`StoreLocal` are u8, jump offsets are i16 — modelled as `Nat`/`Int`, with the
width enforcement living in the compiler exactly as in `compiler.rs`. -/
inductive Instruction where
  | LoadConst (idx : Nat)
  | LoadLocal (idx : Nat)
  | StoreLocal (idx : Nat)
  | Pop
  | Dup
  | Nil
  | Cons
  | MakeTuple (n : Nat)
  | MakeVariant (type_name ctor : String) (n : Nat)
  | MakeClosure (chunkConst : Nat) (captures : List Capture)
  | Add | Sub | Mul | Div | Mod | Neg
  | Eq | Neq | Lt | Lte | Gt | Gte
  | And | Or | Not
  | Jump (offset : Int)
  | JumpIfFalse (offset : Int)
  | JumpIfTrue (offset : Int)
  | Call (n : Nat)
  | Return

/-- `SourceSpan` from `chunk.rs`: line, column, byte offset, byte length
(u32 fields modelled as `Nat`). -/
structure SourceSpan where
  line : Nat
  column : Nat
  offset : Nat
  length : Nat

/-- `SourceSpan::unknown` from `chunk.rs` (the `Default` of all-zero fields). -/
def SourceSpan.unknown : SourceSpan := ⟨0, 0, 0, 0⟩

/-- `Chunk` from `chunk.rs`: instructions, constant pool, optional name,
per-instruction spans, optional source text and source file name. -/
structure Chunk where
  instructions : List Instruction
  constants : List Value
  name : Option String
  spans : List SourceSpan
  source : Option String
  source_file : Option String

/-- `Chunk::new` from `chunk.rs`. -/
def Chunk.new : Chunk := ⟨[], [], none, [], none, none⟩

/-- `Chunk::add_constant` from `chunk.rs`: pushes the value and returns the
new index cast to u16 (the cast is a plain `as u16`, hence the `% 2^16`). -/
def Chunk.add_constant (c : Chunk) (v : Value) : Chunk × Nat :=
  ({ c with constants := c.constants ++ [v] }, c.constants.length % 65536)

/-- `Chunk::emit` from `chunk.rs`: pushes the instruction and a parallel
unknown span. -/
def Chunk.emit (c : Chunk) (i : Instruction) : Chunk :=
  { c with instructions := c.instructions ++ [i],
           spans := c.spans ++ [SourceSpan.unknown] }

/-- `Chunk::current_offset` from `chunk.rs`. -/
def Chunk.current_offset (c : Chunk) : Nat := c.instructions.length

/-! ### The `.fzb` body codec

Modelled from the spec: the body of a serialized chunk is a self-describing,
length-prefixed binary encoding of the chunk's fields (the source delegates to
the external `bincode` crate, which is outside this repository).  Tokens are
naturals standing for the (possibly multi-byte) scalar encodings. -/

/-- Signed-integer encoding: sign tag then magnitude. -/
def encInt : Int → List Nat
  | .ofNat n => [0, n]
  | .negSucc n => [1, n]

/-- Decoder for `encInt`. -/
def decInt : List Nat → Option (Int × List Nat)
  | 0 :: n :: rest => some (.ofNat n, rest)
  | 1 :: n :: rest => some (.negSucc n, rest)
  | _ => none

/-- String encoding: length then the code points. -/
def encStr (s : String) : List Nat :=
  s.data.length :: s.data.map Char.toNat

/-- Split off `n` tokens. -/
def decTake : Nat → List Nat → Option (List Nat × List Nat)
  | 0, input => some ([], input)
  | _ + 1, [] => none
  | n + 1, t :: rest => (decTake n rest).map (fun p => (t :: p.1, p.2))

/-- Decoder for `encStr`. -/
def decStr : List Nat → Option (String × List Nat)
  | [] => none
  | n :: rest => (decTake n rest).map (fun p => (String.mk (p.1.map Char.ofNat), p.2))

/-- Optional-string encoding: presence tag then the string. -/
def encOptStr : Option String → List Nat
  | none => [0]
  | some s => 1 :: encStr s

/-- Decoder for `encOptStr`. -/
def decOptStr : List Nat → Option (Option String × List Nat)
  | 0 :: rest => some (none, rest)
  | 1 :: rest => (decStr rest).map (fun p => (some p.1, p.2))
  | _ => none

/-- Capture-descriptor encoding. -/
def encCapture : Capture → List Nat
  | .localSlot i => [0, i]
  | .upvalueIdx i => [1, i]

/-- Decoder for `encCapture`. -/
def decCapture : List Nat → Option (Capture × List Nat)
  | 0 :: i :: rest => some (.localSlot i, rest)
  | 1 :: i :: rest => some (.upvalueIdx i, rest)
  | _ => none

/-- Concatenated element encodings (the body of a length-prefixed list). -/
def encListBody (enc : α → List Nat) : List α → List Nat
  | [] => []
  | a :: as => enc a ++ encListBody enc as

/-- Length-prefixed list encoding. -/
def encList (enc : α → List Nat) (xs : List α) : List Nat :=
  xs.length :: encListBody enc xs

/-- Decode `n` consecutive elements. -/
def decListBody (dec : List Nat → Option (α × List Nat)) :
    Nat → List Nat → Option (List α × List Nat)
  | 0, input => some ([], input)
  | n + 1, input => do
    let (a, r) ← dec input
    let (as, r') ← decListBody dec n r
    some (a :: as, r')

/-- Decoder for `encList`. -/
def decList (dec : List Nat → Option (α × List Nat)) :
    List Nat → Option (List α × List Nat)
  | [] => none
  | n :: rest => decListBody dec n rest

/-- Instruction encoding: opcode tag then operands. -/
def encInstr : Instruction → List Nat
  | .LoadConst i => [0, i]
  | .LoadLocal i => [1, i]
  | .StoreLocal i => [2, i]
  | .Pop => [3]
  | .Dup => [4]
  | .Nil => [5]
  | .Cons => [6]
  | .MakeTuple n => [7, n]
  | .MakeVariant tn ct n => 8 :: (encStr tn ++ encStr ct ++ [n])
  | .MakeClosure k caps => 9 :: k :: encList encCapture caps
  | .Add => [10]
  | .Sub => [11]
  | .Mul => [12]
  | .Div => [13]
  | .Mod => [14]
  | .Neg => [15]
  | .Eq => [16]
  | .Neq => [17]
  | .Lt => [18]
  | .Lte => [19]
  | .Gt => [20]
  | .Gte => [21]
  | .And => [22]
  | .Or => [23]
  | .Not => [24]
  | .Jump o => 25 :: encInt o
  | .JumpIfFalse o => 26 :: encInt o
  | .JumpIfTrue o => 27 :: encInt o
  | .Call n => [28, n]
  | .Return => [29]

/-- Decoder for `encInstr`. -/
def decInstr : List Nat → Option (Instruction × List Nat)
  | [] => none
  | t :: rest =>
    match t with
    | 0 => match rest with | i :: r => some (.LoadConst i, r) | _ => none
    | 1 => match rest with | i :: r => some (.LoadLocal i, r) | _ => none
    | 2 => match rest with | i :: r => some (.StoreLocal i, r) | _ => none
    | 3 => some (.Pop, rest)
    | 4 => some (.Dup, rest)
    | 5 => some (.Nil, rest)
    | 6 => some (.Cons, rest)
    | 7 => match rest with | n :: r => some (.MakeTuple n, r) | _ => none
    | 8 => do
        let (tn, r1) ← decStr rest
        let (ct, r2) ← decStr r1
        match r2 with
        | n :: r3 => some (.MakeVariant tn ct n, r3)
        | [] => none
    | 9 => match rest with
           | k :: r1 => do
               let (caps, r2) ← decList decCapture r1
               some (.MakeClosure k caps, r2)
           | [] => none
    | 10 => some (.Add, rest)
    | 11 => some (.Sub, rest)
    | 12 => some (.Mul, rest)
    | 13 => some (.Div, rest)
    | 14 => some (.Mod, rest)
    | 15 => some (.Neg, rest)
    | 16 => some (.Eq, rest)
    | 17 => some (.Neq, rest)
    | 18 => some (.Lt, rest)
    | 19 => some (.Lte, rest)
    | 20 => some (.Gt, rest)
    | 21 => some (.Gte, rest)
    | 22 => some (.And, rest)
    | 23 => some (.Or, rest)
    | 24 => some (.Not, rest)
    | 25 => (decInt rest).map (fun p => (.Jump p.1, p.2))
    | 26 => (decInt rest).map (fun p => (.JumpIfFalse p.1, p.2))
    | 27 => (decInt rest).map (fun p => (.JumpIfTrue p.1, p.2))
    | 28 => match rest with | n :: r => some (.Call n, r) | _ => none
    | 29 => some (.Return, rest)
    | _ => none

/-- Span encoding: the four u32 fields. -/
def encSpan (sp : SourceSpan) : List Nat :=
  [sp.line, sp.column, sp.offset, sp.length]

/-- Decoder for `encSpan`. -/
def decSpan : List Nat → Option (SourceSpan × List Nat)
  | a :: b :: c :: d :: rest => some (⟨a, b, c, d⟩, rest)
  | _ => none

mutual

/-- Value encoding: constructor tag then fields (nested values recursively). -/
def encodeValue : Value → List Nat
  | .Int n => 0 :: encInt n
  | .Float b => [1, b]
  | .Bool b => [2, if b then 1 else 0]
  | .Str s => 3 :: encStr s
  | .Unit => [4]
  | .Nil => [5]
  | .Cons h t => 6 :: (encodeValue h ++ encodeValue t)
  | .Tuple xs => 7 :: xs.length :: encodeValueList xs
  | .Record fs => 8 :: fs.length :: encodeEntryList fs
  | .Variant tn vn fs => 9 :: (encStr tn ++ encStr vn ++ fs.length :: encodeValueList fs)
  | .Map r => [10, r]
  | .Closure r => [11, r]
  | .NativeFn nm ar args => 12 :: (encStr nm ++ ar :: args.length :: encodeValueList args)
  | .AsyncTask id => [13, id]
  | .AsyncVal v => 14 :: encodeValue v

/-- Concatenated encodings of a list of values. -/
def encodeValueList : List Value → List Nat
  | [] => []
  | v :: vs => encodeValue v ++ encodeValueList vs

/-- Concatenated encodings of record entries. -/
def encodeEntryList : List (String × Value) → List Nat
  | [] => []
  | (k, v) :: fs => encStr k ++ (encodeValue v ++ encodeEntryList fs)

end

mutual

/-- Fuelled decoder for `encodeValue`. -/
def decodeValue : Nat → List Nat → Option (Value × List Nat)
  | 0, _ => none
  | _ + 1, [] => none
  | fuel + 1, t :: rest =>
    match t with
    | 0 => (decInt rest).map (fun p => (.Int p.1, p.2))
    | 1 => match rest with | b :: r => some (.Float b, r) | _ => none
    | 2 => match rest with
           | 0 :: r => some (.Bool false, r)
           | 1 :: r => some (.Bool true, r)
           | _ => none
    | 3 => (decStr rest).map (fun p => (.Str p.1, p.2))
    | 4 => some (.Unit, rest)
    | 5 => some (.Nil, rest)
    | 6 => do
        let (h, r1) ← decodeValue fuel rest
        let (tl, r2) ← decodeValue fuel r1
        some (.Cons h tl, r2)
    | 7 => match rest with
           | n :: r => do
               let (xs, r') ← decodeValueList fuel n r
               some (.Tuple xs, r')
           | [] => none
    | 8 => match rest with
           | n :: r => do
               let (fs, r') ← decodeEntryList fuel n r
               some (.Record fs, r')
           | [] => none
    | 9 => do
        let (tn, r1) ← decStr rest
        let (vn, r2) ← decStr r1
        match r2 with
        | n :: r3 => do
            let (fs, r') ← decodeValueList fuel n r3
            some (.Variant tn vn fs, r')
        | [] => none
    | 10 => match rest with | r :: rr => some (.Map r, rr) | _ => none
    | 11 => match rest with | r :: rr => some (.Closure r, rr) | _ => none
    | 12 => do
        let (nm, r1) ← decStr rest
        match r1 with
        | ar :: n :: r2 => do
            let (args, r') ← decodeValueList fuel n r2
            some (.NativeFn nm ar args, r')
        | _ => none
    | 13 => match rest with | i :: rr => some (.AsyncTask i, rr) | _ => none
    | 14 => do
        let (v, r') ← decodeValue fuel rest
        some (.AsyncVal v, r')
    | _ => none
termination_by fuel _input => (fuel, 0)

/-- Fuelled decoder for `n` consecutive values. -/
def decodeValueList : Nat → Nat → List Nat → Option (List Value × List Nat)
  | _, 0, input => some ([], input)
  | 0, _ + 1, _ => none
  | fuel + 1, n + 1, input => do
      let (v, r) ← decodeValue (fuel + 1) input
      let (vs, r') ← decodeValueList fuel n r
      some (v :: vs, r')
termination_by fuel n _input => (fuel, n + 1)

/-- Fuelled decoder for `n` consecutive record entries. -/
def decodeEntryList : Nat → Nat → List Nat → Option (List (String × Value) × List Nat)
  | _, 0, input => some ([], input)
  | 0, _ + 1, _ => none
  | fuel + 1, n + 1, input => do
      let (k, r0) ← decStr input
      let (v, r) ← decodeValue (fuel + 1) r0
      let (fs, r') ← decodeEntryList fuel n r
      some ((k, v) :: fs, r')
termination_by fuel n _input => (fuel, n + 1)

end

/-- Encoding of the serialized chunk body: instructions, constants, spans,
then the three optional metadata strings. -/
def encodeChunkBody (c : Chunk) : List Nat :=
  encList encInstr c.instructions ++
    (c.constants.length :: encodeValueList c.constants) ++
    encList encSpan c.spans ++
    encOptStr c.name ++ encOptStr c.source ++ encOptStr c.source_file

/-- Decoder for `encodeChunkBody`. -/
def decodeChunkBody (fuel : Nat) (input : List Nat) : Option Chunk := do
  let (instrs, r1) ← decList decInstr input
  let (cs, r2) ←
    match r1 with
    | [] => none
    | n :: r => decodeValueList fuel n r
  let (spans, r3) ← decList decSpan r2
  let (name, r4) ← decOptStr r3
  let (src, r5) ← decOptStr r4
  let (sf, _r6) ← decOptStr r5
  some ⟨instrs, cs, name, spans, src, sf⟩

/-- `serialize_chunk` from `lib.rs`: the 4 magic bytes `F Z B 0x01`, the
version byte `0x01`, then the serialized chunk body. -/
def serialize_chunk (c : Chunk) : List Nat :=
  [70, 90, 66, 1] ++ [1] ++ encodeChunkBody c

/-- `deserialize_chunk` from `lib.rs`: checks minimum length, magic bytes and
version before decoding the body. -/
def deserialize_chunk (bytes : List Nat) : Except String Chunk :=
  if bytes.length < 5 then
    .error "File too small to be a valid .fzb file"
  else if bytes.take 4 ≠ [70, 90, 66, 1] then
    .error "Invalid magic bytes - not a .fzb file"
  else if bytes.getD 4 0 ≠ 1 then
    .error "Unsupported .fzb version"
  else
    match decodeChunkBody bytes.length (bytes.drop 5) with
    | some c => .ok c
    | none => .error "bincode deserialization error"

/-! ### Codec round-trip lemmas -/

theorem decInt_encInt (i : Int) (rest : List Nat) :
    decInt (encInt i ++ rest) = some (i, rest) := by
  cases i <;> rfl

theorem decTake_append (xs rest : List Nat) :
    decTake xs.length (xs ++ rest) = some (xs, rest) := by
  induction xs with
  | nil => rfl
  | cons a as ih => simp [decTake, ih]

theorem decStr_encStr (s : String) (rest : List Nat) :
    decStr (encStr s ++ rest) = some (s, rest) := by
  obtain ⟨d⟩ := s
  have h := decTake_append (d.map Char.toNat) rest
  rw [List.length_map] at h
  simp [encStr, decStr, h, List.map_map, Function.comp_def, Char.ofNat_toNat]

theorem decOptStr_encOptStr (o : Option String) (rest : List Nat) :
    decOptStr (encOptStr o ++ rest) = some (o, rest) := by
  cases o with
  | none => rfl
  | some s => simp [encOptStr, decOptStr, decStr_encStr]

theorem decCapture_encCapture (cp : Capture) (rest : List Nat) :
    decCapture (encCapture cp ++ rest) = some (cp, rest) := by
  cases cp <;> rfl

theorem decListBody_enc {α : Type} (dec : List Nat → Option (α × List Nat))
    (enc : α → List Nat) (xs : List α)
    (H : ∀ a ∈ xs, ∀ rest, dec (enc a ++ rest) = some (a, rest)) (rest : List Nat) :
    decListBody dec xs.length (encListBody enc xs ++ rest) = some (xs, rest) := by
  induction xs with
  | nil => rfl
  | cons a as ih =>
      have ha := H a (by simp) (encListBody enc as ++ rest)
      have hrec := ih (fun b hb r => H b (by simp [hb]) r)
      simp [encListBody, decListBody, List.append_assoc, ha, hrec]

theorem decList_encList {α : Type} (dec : List Nat → Option (α × List Nat))
    (enc : α → List Nat) (xs : List α)
    (H : ∀ a ∈ xs, ∀ rest, dec (enc a ++ rest) = some (a, rest)) (rest : List Nat) :
    decList dec (encList enc xs ++ rest) = some (xs, rest) := by
  simpa [encList, decList] using decListBody_enc dec enc xs H rest

theorem decCaptureList_enc (caps : List Capture) (rest : List Nat) :
    decList decCapture (encList encCapture caps ++ rest) = some (caps, rest) :=
  decList_encList _ _ _ (fun a _ r => decCapture_encCapture a r) rest

theorem decInstr_encInstr (i : Instruction) (rest : List Nat) :
    decInstr (encInstr i ++ rest) = some (i, rest) := by
  cases i <;>
    simp [encInstr, decInstr, decInt_encInt, decStr_encStr, decCaptureList_enc,
      List.append_assoc]

theorem decSpan_encSpan (sp : SourceSpan) (rest : List Nat) :
    decSpan (encSpan sp ++ rest) = some (sp, rest) := rfl

theorem encodeValue_length_pos (v : Value) : 0 < (encodeValue v).length := by
  cases v <;> simp [encodeValue]

/-- Joint fuelled round-trip for the value codec: with fuel at least the
encoding's length, decoding undoes encoding and leaves the rest untouched. -/
theorem decode_encode_fuel : ∀ fuel : Nat,
    (∀ v : Value, (encodeValue v).length ≤ fuel →
      ∀ rest, decodeValue fuel (encodeValue v ++ rest) = some (v, rest)) ∧
    (∀ vs : List Value, (encodeValueList vs).length ≤ fuel →
      ∀ rest, decodeValueList fuel vs.length (encodeValueList vs ++ rest) = some (vs, rest)) ∧
    (∀ fs : List (String × Value), (encodeEntryList fs).length ≤ fuel →
      ∀ rest, decodeEntryList fuel fs.length (encodeEntryList fs ++ rest) = some (fs, rest)) := by
  intro fuel
  induction fuel with
  | zero =>
      refine ⟨?_, ?_, ?_⟩
      · intro v hlen
        exact absurd hlen (by simpa using Nat.not_le_of_lt (encodeValue_length_pos v))
      · intro vs hlen rest
        cases vs with
        | nil => simp [encodeValueList, decodeValueList]
        | cons v vs' =>
            exfalso
            have := encodeValue_length_pos v
            simp only [encodeValueList, List.length_append] at hlen
            omega
      · intro fs hlen rest
        cases fs with
        | nil => simp [encodeEntryList, decodeEntryList]
        | cons f fs' =>
            exfalso
            obtain ⟨k, v⟩ := f
            simp only [encodeEntryList, List.length_append, List.length_cons,
              encStr] at hlen
            omega
  | succ fuel ih =>
      obtain ⟨ihv, ihl, ihe⟩ := ih
      have hv : ∀ v : Value, (encodeValue v).length ≤ fuel + 1 →
          ∀ rest, decodeValue (fuel + 1) (encodeValue v ++ rest) = some (v, rest) := by
        intro v hlen rest
        cases v with
        | Int n => simp [encodeValue, decodeValue, decInt_encInt]
        | Float b => simp [encodeValue, decodeValue]
        | Bool b => cases b <;> simp [encodeValue, decodeValue]
        | Str s => simp [encodeValue, decodeValue, decStr_encStr]
        | Unit => simp [encodeValue, decodeValue]
        | Nil => simp [encodeValue, decodeValue]
        | Cons h t =>
            have h1 : (encodeValue h).length ≤ fuel := by
              have := encodeValue_length_pos t
              simp [encodeValue] at hlen; omega
            have h2 : (encodeValue t).length ≤ fuel := by
              have := encodeValue_length_pos h
              simp [encodeValue] at hlen; omega
            simp [encodeValue, decodeValue, List.append_assoc,
              ihv h h1 (encodeValue t ++ rest), ihv t h2 rest]
        | Tuple xs =>
            have h1 : (encodeValueList xs).length ≤ fuel := by
              simp [encodeValue] at hlen; omega
            simp [encodeValue, decodeValue, ihl xs h1 rest]
        | Record fs =>
            have h1 : (encodeEntryList fs).length ≤ fuel := by
              simp [encodeValue] at hlen; omega
            simp [encodeValue, decodeValue, ihe fs h1 rest]
        | Variant tn vn fs =>
            have h1 : (encodeValueList fs).length ≤ fuel := by
              simp [encodeValue, encStr] at hlen; omega
            simp [encodeValue, decodeValue, List.append_assoc, decStr_encStr,
              ihl fs h1 rest]
        | Map r => simp [encodeValue, decodeValue]
        | Closure r => simp [encodeValue, decodeValue]
        | NativeFn nm ar args =>
            have h1 : (encodeValueList args).length ≤ fuel := by
              simp [encodeValue, encStr] at hlen; omega
            simp [encodeValue, decodeValue, List.append_assoc, decStr_encStr,
              ihl args h1 rest]
        | AsyncTask id => simp [encodeValue, decodeValue]
        | AsyncVal v =>
            have h1 : (encodeValue v).length ≤ fuel := by
              simp [encodeValue] at hlen; omega
            simp [encodeValue, decodeValue, ihv v h1 rest]
      refine ⟨hv, ?_, ?_⟩
      · intro vs hlen rest
        cases vs with
        | nil => simp [encodeValueList, decodeValueList]
        | cons v vs' =>
            have h1 : (encodeValue v).length ≤ fuel + 1 := by
              simp [encodeValueList] at hlen; omega
            have h2 : (encodeValueList vs').length ≤ fuel := by
              have := encodeValue_length_pos v
              simp [encodeValueList] at hlen; omega
            simp [encodeValueList, decodeValueList, List.append_assoc,
              hv v h1 (encodeValueList vs' ++ rest), ihl vs' h2 rest]
      · intro fs hlen rest
        cases fs with
        | nil => simp [encodeEntryList, decodeEntryList]
        | cons f fs' =>
            obtain ⟨k, w⟩ := f
            have h1 : (encodeValue w).length ≤ fuel + 1 := by
              simp [encodeEntryList] at hlen; omega
            have h2 : (encodeEntryList fs').length ≤ fuel := by
              simp [encodeEntryList, encStr] at hlen
              have := encodeValue_length_pos w
              omega
            simp [encodeEntryList, decodeEntryList, List.append_assoc, decStr_encStr,
              hv w h1 (encodeEntryList fs' ++ rest), ihe fs' h2 rest]

theorem decInstrList_enc (instrs : List Instruction) (rest : List Nat) :
    decList decInstr (encList encInstr instrs ++ rest) = some (instrs, rest) :=
  decList_encList _ _ _ (fun a _ r => decInstr_encInstr a r) rest

theorem decSpanList_enc (spans : List SourceSpan) (rest : List Nat) :
    decList decSpan (encList encSpan spans ++ rest) = some (spans, rest) :=
  decList_encList _ _ _ (fun a _ r => decSpan_encSpan a r) rest

theorem decodeChunkBody_encode (c : Chunk) (fuel : Nat)
    (h : (encodeValueList c.constants).length ≤ fuel) :
    decodeChunkBody fuel (encodeChunkBody c) = some c := by
  obtain ⟨instrs, cs, name, spans, src, sf⟩ := c
  have hcs : ∀ rest, decodeValueList fuel cs.length (encodeValueList cs ++ rest) =
      some (cs, rest) := fun rest => (decode_encode_fuel fuel).2.1 cs h rest
  have hlast : decOptStr (encOptStr sf) = some (sf, []) := by
    simpa using decOptStr_encOptStr sf []
  simp [encodeChunkBody, decodeChunkBody, List.append_assoc, decInstrList_enc,
    decSpanList_enc, decOptStr_encOptStr, hcs, hlast]

/-- C1: for every `Chunk` (any instructions, constants, spans, name, source and
source file), deserializing the serialization succeeds and returns the same
chunk, and the serialized bytes begin with the four magic bytes
`F` `Z` `B` `0x01` (70, 90, 66, 1) followed by the version byte `0x01`. -/
theorem serialize_deserialize_chunk_roundtrip (c : Chunk) :
    deserialize_chunk (serialize_chunk c) = Except.ok c ∧
    (serialize_chunk c).take 5 = [70, 90, 66, 1, 1] := by
  refine ⟨?_, rfl⟩
  have hlen : (encodeValueList c.constants).length ≤ (serialize_chunk c).length := by
    simp [serialize_chunk, encodeChunkBody, encList]
    omega
  have hb := decodeChunkBody_encode c _ hlen
  show deserialize_chunk (70 :: 90 :: 66 :: 1 :: 1 :: encodeChunkBody c) = Except.ok c
  rw [deserialize_chunk]
  rw [if_neg (by simp), if_neg (by simp), if_neg (by simp)]
  have hdrop : (70 :: 90 :: 66 :: 1 :: 1 :: encodeChunkBody c).drop 5 =
      encodeChunkBody c := rfl
  rw [hdrop]
  have hfuel : (70 :: 90 :: 66 :: 1 :: 1 :: encodeChunkBody c).length =
      (serialize_chunk c).length := rfl
  rw [hfuel, hb]

/-! ### The bytecode compiler (`fsrs-frontend/src/compiler.rs`) -/

/-- `Literal` from the frontend AST as consumed by `compile_literal`
(floats are carried but rejected by the Phase-1 compiler). -/
inductive Literal where
  | Int (n : Int)
  | Bool (b : Bool)
  | Str (s : String)
  | Unit
  | Float (bits : Nat)

/-- `BinOp` from the frontend AST: the operators handled by `compile_binop`. -/
inductive BinOp where
  | Add | Sub | Mul | Div | Eq | Neq | Lt | Lte | Gt | Gte | And | Or

/-- `Expr` from the frontend AST: the forms handled by `compile_expr`. -/
inductive Expr where
  | Lit (l : Literal)
  | Var (name : String)
  | BinOp (op : BinOp) (left right : Expr)
  | Let (name : String) (value body : Expr)
  | Lambda (param : String) (body : Expr)
  | App (func arg : Expr)
  | If (cond then_branch else_branch : Expr)

/-- `CompileError` from `compiler.rs`. -/
inductive CompileError where
  | UndefinedVariable (name : String)
  | TooManyConstants
  | TooManyLocals
  | InvalidJumpOffset
  | UnsupportedFloat
  deriving DecidableEq

/-- `Local` from `compiler.rs`: a local-variable record. -/
structure Local where
  name : String
  depth : Nat

/-- `Compiler` state from `compiler.rs`: the in-progress chunk, the locals
table and the current scope depth. -/
structure Compiler where
  chunk : Chunk
  locals : List Local
  scope_depth : Nat

/-- `Compiler::new` from `compiler.rs`. -/
def Compiler.new : Compiler := ⟨Chunk.new, [], 0⟩

/-- `Compiler::emit` from `compiler.rs`. -/
def Compiler.emit (c : Compiler) (i : Instruction) : Compiler :=
  { c with chunk := c.chunk.emit i }

/-- `Compiler::add_constant` from `compiler.rs`: rejects when the pool already
holds `u16::MAX` (65535) constants, otherwise delegates to
`Chunk::add_constant`. -/
def Compiler.add_constant (c : Compiler) (v : Value) :
    Except CompileError (Nat × Compiler) :=
  if c.chunk.constants.length ≥ 65535 then .error .TooManyConstants
  else
    let p := c.chunk.add_constant v
    .ok (p.2, { c with chunk := p.1 })

/-- `Compiler::emit_jump` from `compiler.rs`: emits the jump and returns its
index for later patching. -/
def Compiler.emit_jump (c : Compiler) (i : Instruction) : Nat × Compiler :=
  let c' := c.emit i
  (c'.chunk.current_offset - 1, c')

/-- `Compiler::patch_jump` from `compiler.rs`: computes
`current_offset - jump_pos - 1`, rejects offsets beyond `i16::MAX`, and
rewrites the operand of the jump at `jump_pos`.  The source's `unreachable!`
branch (patching a non-jump) is modelled as leaving the instruction in place;
every use below patches a recorded jump site, as in the source. -/
def Compiler.patch_jump (c : Compiler) (jump_pos : Nat) :
    Except CompileError Compiler :=
  let offset := c.chunk.current_offset - jump_pos - 1
  if offset > 32767 then .error .InvalidJumpOffset
  else
    let newInstr : Instruction :=
      match c.chunk.instructions.getD jump_pos .Pop with
      | .Jump _ => .Jump (Int.ofNat offset)
      | .JumpIfFalse _ => .JumpIfFalse (Int.ofNat offset)
      | other => other
    .ok { c with chunk :=
      { c.chunk with instructions := c.chunk.instructions.set jump_pos newInstr } }

/-- `Compiler::begin_scope` from `compiler.rs`. -/
def Compiler.begin_scope (c : Compiler) : Compiler :=
  { c with scope_depth := c.scope_depth + 1 }

/-- The `while` loop of `Compiler::end_scope`: pop locals deeper than the
current scope, emitting a `Pop` for each (fuel is the locals count). -/
def end_scope_aux : Nat → Compiler → Compiler
  | 0, c => c
  | fuel + 1, c =>
    match c.locals.getLast? with
    | some l =>
        if l.depth > c.scope_depth then
          end_scope_aux fuel { c.emit .Pop with locals := c.locals.dropLast }
        else c
    | none => c

/-- `Compiler::end_scope` from `compiler.rs`. -/
def Compiler.end_scope (c : Compiler) : Compiler :=
  let c' : Compiler := { c with scope_depth := c.scope_depth - 1 }
  end_scope_aux c'.locals.length c'

/-- `Compiler::add_local` from `compiler.rs`: rejects when the table already
holds `u8::MAX` (255) locals. -/
def Compiler.add_local (c : Compiler) (name : String) :
    Except CompileError Compiler :=
  if c.locals.length ≥ 255 then .error .TooManyLocals
  else .ok { c with locals := c.locals ++ [⟨name, c.scope_depth⟩] }

/-- The innermost-to-outermost scan of `compile_var`: index of the last
matching local (the source iterates `enumerate().rev()`). -/
def findLocal : List Local → String → Option Nat
  | [], _ => none
  | l :: ls, n =>
    match findLocal ls n with
    | some i => some (i + 1)
    | none => if l.name = n then some 0 else none

/-- The operator table of `compile_binop`. -/
def binop_instr : BinOp → Instruction
  | .Add => .Add
  | .Sub => .Sub
  | .Mul => .Mul
  | .Div => .Div
  | .Eq => .Eq
  | .Neq => .Neq
  | .Lt => .Lt
  | .Lte => .Lte
  | .Gt => .Gt
  | .Gte => .Gte
  | .And => .And
  | .Or => .Or

/-- `Compiler::compile_expr` from `compiler.rs`, with the per-form helpers
(`compile_literal`, `compile_var`, `compile_binop`, `compile_let`,
`compile_lambda`, `compile_app`, `compile_if`) inlined at their single call
sites.  Index casts `as u8` / `as u16` are the `% 256` / `% 65536`. -/
def compile_expr : Expr → Compiler → Except CompileError Compiler
  | .Lit lit, c => do
    let v : Value ←
      match lit with
      | .Int n => Except.ok (Value.Int n)
      | .Bool b => Except.ok (Value.Bool b)
      | .Str s => Except.ok (Value.Str s)
      | .Unit => Except.ok Value.Unit
      | .Float _ => Except.error CompileError.UnsupportedFloat
    let p ← c.add_constant v
    .ok (p.2.emit (.LoadConst p.1))
  | .Var name, c =>
    match findLocal c.locals name with
    | some i => .ok (c.emit (.LoadLocal (i % 256)))
    | none => .error (.UndefinedVariable name)
  | .BinOp op left right, c => do
    let c1 ← compile_expr left c
    let c2 ← compile_expr right c1
    .ok (c2.emit (binop_instr op))
  | .Let name value body, c => do
    let c1 ← compile_expr value c
    let c2 := c1.begin_scope
    let c3 ← c2.add_local name
    let c4 := c3.emit (.StoreLocal ((c3.locals.length - 1) % 256))
    let c5 ← compile_expr body c4
    .ok c5.end_scope
  | .Lambda param body, c => do
    let lc := Compiler.new.begin_scope
    let lc1 ← lc.add_local param
    let lc2 ← compile_expr body lc1
    let lc3 := lc2.emit .Return
    let _lc4 := lc3.end_scope
    .ok c
  | .App func arg, c => do
    let c1 ← compile_expr func c
    let c2 ← compile_expr arg c1
    .ok (c2.emit (.Call 1))
  | .If cond tb eb, c => do
    let c1 ← compile_expr cond c
    let p1 := c1.emit_jump (.JumpIfFalse 0)
    let c3 := p1.2.emit .Pop
    let c4 ← compile_expr tb c3
    let p2 := c4.emit_jump (.Jump 0)
    let c6 ← p2.2.patch_jump p1.1
    let c7 := c6.emit .Pop
    let c8 ← compile_expr eb c7
    let c9 ← c8.patch_jump p2.1
    .ok c9

/-- `Compiler::compile` from `compiler.rs`: compile the expression into a
fresh compiler, append the terminal `Return`, yield the chunk. -/
def Compiler.compile (e : Expr) : Except CompileError Chunk := do
  let c ← compile_expr e Compiler.new
  .ok ((c.emit .Return).chunk)

/-! ### Compiler theorems -/

/-- C2: the source's `compile_lambda` is a Phase-1 placeholder: whenever
compiling a standalone `Lambda` succeeds it leaves the enclosing compiler
completely unchanged — no closure-construction (`MakeClosure`) instruction and
no closure constant is emitted, contradicting the claim (and the spec's
stated intent).  Concretely, `compile (Lambda "x" (Var "x"))` yields a chunk
whose only instruction is the terminal `Return` and whose pool is empty. -/
theorem compile_lambda_emits_nothing :
    (∀ p body c c', compile_expr (.Lambda p body) c = .ok c' → c' = c) ∧
    Compiler.compile (.Lambda "x" (.Var "x")) =
      .ok { instructions := [.Return], constants := [], name := none,
            spans := [SourceSpan.unknown], source := none, source_file := none } := by
  constructor
  · intro p body c c' h
    rw [compile_expr] at h
    cases hl : (Compiler.new.begin_scope).add_local p with
    | error e => simp [hl, bind, Except.bind] at h
    | ok lc1 =>
        cases hb : compile_expr body lc1 with
        | error e => simp [hl, hb, bind, Except.bind] at h
        | ok lc2 =>
            simp [hl, hb, bind, Except.bind] at h
            exact h.symm
  · rfl

/-- Witness for C2's general part: the hypothesis is satisfiable — a concrete
lambda compiles successfully and, per the theorem, leaves the compiler as it
was. -/
theorem compile_lambda_emits_nothing_witness : Compiler.new = Compiler.new :=
  compile_lambda_emits_nothing.1 "y" (.Lit .Unit) Compiler.new Compiler.new rfl

/-- A compiler state whose constant pool already holds `u16::MAX` = 65535
entries. -/
def fullConstPool : Compiler :=
  { chunk := { Chunk.new with constants := List.replicate 65535 Value.Unit },
    locals := [], scope_depth := 0 }

/-- C3 counterexample: adding a constant to a pool of 65535 entries — so that
the resulting pool would hold exactly 2^16 entries, which the claim says must
succeed — fails with `TooManyConstants`. -/
theorem add_constant_full_pool_fails :
    fullConstPool.chunk.constants.length + 1 ≤ 2 ^ 16 ∧
    fullConstPool.add_constant Value.Unit = .error .TooManyConstants := by
  have hlen : fullConstPool.chunk.constants.length = 65535 := by
    simp only [fullConstPool, List.length_replicate]
  constructor
  · rw [hlen]; norm_num
  · rw [Compiler.add_constant, if_pos (by rw [hlen])]

/-- C3 amended: `add_constant` succeeds exactly when the resulting pool has at
most `2^16 - 1` = 65535 entries (a pool of exactly 65535 entries is reachable
and the 65536-th insertion fails with `TooManyConstants`); on success the
returned index is the old length reduced mod 2^16. -/
theorem add_constant_boundary (c : Compiler) (v : Value) :
    (c.chunk.constants.length + 1 ≤ 2 ^ 16 - 1 →
      c.add_constant v = .ok (c.chunk.constants.length % 65536,
        { c with chunk := { c.chunk with constants := c.chunk.constants ++ [v] } })) ∧
    (2 ^ 16 - 1 < c.chunk.constants.length + 1 →
      c.add_constant v = .error .TooManyConstants) := by
  have h16 : (2 : ℕ) ^ 16 = 65536 := by norm_num
  constructor
  · intro h
    rw [Compiler.add_constant, if_neg (by omega)]
    rfl
  · intro h
    rw [Compiler.add_constant, if_pos (by omega)]

/-- Witness for C3's amended theorem at a concrete input: inserting into an
empty pool succeeds with index 0. -/
theorem add_constant_boundary_witness :
    Compiler.new.add_constant (Value.Int 7) =
      .ok (0, { Compiler.new with
                chunk := { Chunk.new with constants := [Value.Int 7] } }) := by
  simpa using (add_constant_boundary Compiler.new (Value.Int 7)).1
    (by norm_num [Compiler.new, Chunk.new])

/-- A compiler state whose locals table already holds `u8::MAX` = 255
entries. -/
def fullLocals : Compiler :=
  { chunk := Chunk.new, locals := List.replicate 255 ⟨"x", 1⟩, scope_depth := 1 }

/-- C4 counterexample: adding a local to a table of 255 entries — so that the
resulting count would be exactly 2^8, which the claim says must succeed —
fails with `TooManyLocals`. -/
theorem add_local_full_table_fails :
    fullLocals.locals.length + 1 ≤ 2 ^ 8 ∧
    fullLocals.add_local "y" = .error .TooManyLocals := by
  have hlen : fullLocals.locals.length = 255 := by
    simp only [fullLocals, List.length_replicate]
  constructor
  · rw [hlen]; norm_num
  · rw [Compiler.add_local, if_pos (by rw [hlen])]

/-- C4 amended: `add_local` succeeds exactly when the resulting local count is
at most `2^8 - 1` = 255 (a table of exactly 255 locals is reachable and the
256-th insertion fails with `TooManyLocals`). -/
theorem add_local_boundary (c : Compiler) (name : String) :
    (c.locals.length + 1 ≤ 2 ^ 8 - 1 →
      c.add_local name = .ok { c with locals := c.locals ++ [⟨name, c.scope_depth⟩] }) ∧
    (2 ^ 8 - 1 < c.locals.length + 1 →
      c.add_local name = .error .TooManyLocals) := by
  have h8 : (2 : ℕ) ^ 8 = 256 := by norm_num
  constructor
  · intro h
    rw [Compiler.add_local, if_neg (by omega)]
  · intro h
    rw [Compiler.add_local, if_pos (by omega)]

/-- Witness for C4's amended theorem at a concrete input: adding a local to an
empty table succeeds. -/
theorem add_local_boundary_witness :
    Compiler.new.add_local "a" =
      .ok { Compiler.new with locals := [⟨"a", 0⟩] } := by
  simpa using (add_local_boundary Compiler.new "a").1
    (by norm_num [Compiler.new, Chunk.new])

theorem getD_set_ne {l : List Instruction} {i j : Nat} (a d : Instruction)
    (h : i ≠ j) : (l.set i a).getD j d = l.getD j d := by
  simp [List.getD, List.getElem?_set_ne h]

theorem getD_set_self {l : List Instruction} {i : Nat} (a d : Instruction)
    (h : i < l.length) : (l.set i a).getD i d = a := by
  simp [List.getD, List.getElem?_set_eq_of_lt a h]

/-- C5: for a jump recorded at index `i` and patched when the chunk holds `t`
instructions with `t ≥ i + 1`: if the computed offset `t - (i + 1)` fits in
i16, `patch_jump` succeeds, writes only at index `i` (the instruction count is
unchanged and every other index is untouched), rewrites the jump operand to
`t - (i + 1)`, and the written offset satisfies `|offset| ≤ 32767`; if the
offset is out of i16 range it fails with `InvalidJumpOffset` without rewriting
anything (the error is returned before any instruction is touched). -/
theorem patch_jump_spec (c : Compiler) (i : Nat)
    (hlt : i + 1 ≤ c.chunk.instructions.length) :
    (c.chunk.instructions.length - (i + 1) ≤ 32767 →
      ∃ c', c.patch_jump i = .ok c' ∧
        c'.chunk.instructions.length = c.chunk.instructions.length ∧
        (∀ j, j ≠ i →
          c'.chunk.instructions.getD j .Pop = c.chunk.instructions.getD j .Pop) ∧
        (∀ o, c.chunk.instructions.getD i .Pop = .Jump o →
          c'.chunk.instructions.getD i .Pop =
            .Jump (Int.ofNat (c.chunk.instructions.length - (i + 1)))) ∧
        (∀ o, c.chunk.instructions.getD i .Pop = .JumpIfFalse o →
          c'.chunk.instructions.getD i .Pop =
            .JumpIfFalse (Int.ofNat (c.chunk.instructions.length - (i + 1)))) ∧
        (Int.ofNat (c.chunk.instructions.length - (i + 1))).natAbs ≤ 32767) ∧
    (32767 < c.chunk.instructions.length - (i + 1) →
      c.patch_jump i = .error .InvalidJumpOffset) := by
  have harith : c.chunk.current_offset - i - 1 = c.chunk.instructions.length - (i + 1) := by
    simp only [Chunk.current_offset]
    omega
  constructor
  · intro hle
    have hguard : ¬ (c.chunk.current_offset - i - 1 > 32767) := by
      rw [harith]; omega
    have hrun : c.patch_jump i = .ok { c with chunk := { c.chunk with
        instructions := c.chunk.instructions.set i
          (match c.chunk.instructions.getD i .Pop with
           | .Jump _ => .Jump (Int.ofNat (c.chunk.instructions.length - (i + 1)))
           | .JumpIfFalse _ => .JumpIfFalse (Int.ofNat (c.chunk.instructions.length - (i + 1)))
           | other => other) } } := by
      rw [Compiler.patch_jump]
      simp only []
      rw [if_neg hguard, harith]
    refine ⟨_, hrun, by simp, ?_, ?_, ?_, by simp; omega⟩
    · intro j hj
      exact getD_set_ne _ _ (fun hij => hj hij.symm)
    · intro o ho
      rw [ho]
      exact getD_set_self _ _ (by omega)
    · intro o ho
      rw [ho]
      exact getD_set_self _ _ (by omega)
  · intro hgt
    have hguard : c.chunk.current_offset - i - 1 > 32767 := by
      rw [harith]; omega
    rw [Compiler.patch_jump]
    simp only []
    rw [if_pos hguard]

/-- A two-instruction demo state: a recorded `JumpIfFalse` placeholder at
index 0 followed by a `Pop`. -/
def jumpDemo : Compiler :=
  { chunk := { Chunk.new with
               instructions := [.JumpIfFalse 0, .Pop],
               spans := [SourceSpan.unknown, SourceSpan.unknown] },
    locals := [], scope_depth := 0 }

/-- Witness for C5 at a concrete input: patching index 0 of a two-instruction
chunk rewrites the jump operand to 1 and touches nothing else. -/
theorem patch_jump_spec_witness :
    ∃ c', jumpDemo.patch_jump 0 = .ok c' ∧
      c'.chunk.instructions.length = jumpDemo.chunk.instructions.length ∧
      (∀ j, j ≠ 0 →
        c'.chunk.instructions.getD j .Pop = jumpDemo.chunk.instructions.getD j .Pop) ∧
      (∀ o, jumpDemo.chunk.instructions.getD 0 .Pop = .Jump o →
        c'.chunk.instructions.getD 0 .Pop =
          .Jump (Int.ofNat (jumpDemo.chunk.instructions.length - (0 + 1)))) ∧
      (∀ o, jumpDemo.chunk.instructions.getD 0 .Pop = .JumpIfFalse o →
        c'.chunk.instructions.getD 0 .Pop =
          .JumpIfFalse (Int.ofNat (jumpDemo.chunk.instructions.length - (0 + 1)))) ∧
      (Int.ofNat (jumpDemo.chunk.instructions.length - (0 + 1))).natAbs ≤ 32767 :=
  (patch_jump_spec jumpDemo 0 (by norm_num [jumpDemo])).1 (by norm_num [jumpDemo])

theorem getD_append_len {α : Type} (l1 l2 : List α) (x d : α) :
    (l1 ++ x :: l2).getD l1.length d = x := by
  have h : (l1 ++ x :: l2)[l1.length]? = some x := by
    rw [List.getElem?_append_right (le_refl _)]
    simp
  simp [List.getD, h]

theorem set_append_len {α : Type} (l1 l2 : List α) (x y : α) :
    (l1 ++ x :: l2).set l1.length y = l1 ++ y :: l2 := by
  simp [List.set_append]

theorem emit_instructions (c : Compiler) (i : Instruction) :
    (c.emit i).chunk.instructions = c.chunk.instructions ++ [i] := rfl

theorem add_constant_chunk_instructions {c : Compiler} {v : Value} {p : Nat × Compiler}
    (h : c.add_constant v = .ok p) :
    p.2.chunk.instructions = c.chunk.instructions := by
  rw [Compiler.add_constant] at h
  split at h
  · exact absurd h (by simp)
  · cases h
    rfl

theorem add_local_chunk {c : Compiler} {n : String} {c' : Compiler}
    (h : c.add_local n = .ok c') : c'.chunk = c.chunk := by
  rw [Compiler.add_local] at h
  split at h
  · exact absurd h (by simp)
  · cases h
    rfl

theorem set_extends {α : Type} (pre t : List α) (j : Nat) (hj : pre.length ≤ j)
    (a : α) : ∃ t', (pre ++ t).set j a = pre ++ t' := by
  refine ⟨t.set (j - pre.length) a, ?_⟩
  rw [List.set_append, if_neg (by omega)]

theorem patch_jump_ok_set {c : Compiler} {j : Nat} {c' : Compiler}
    (h : c.patch_jump j = .ok c') :
    ∃ ni, c'.chunk.instructions = c.chunk.instructions.set j ni := by
  rw [Compiler.patch_jump] at h
  simp only [] at h
  split at h
  · exact absurd h (by simp)
  · cases h
    exact ⟨_, rfl⟩

theorem emit_jump_fst (c : Compiler) (i : Instruction) :
    (c.emit_jump i).1 = c.chunk.instructions.length := by
  simp [Compiler.emit_jump, Compiler.emit, Chunk.emit, Chunk.current_offset]

theorem emit_jump_snd (c : Compiler) (i : Instruction) :
    (c.emit_jump i).2 = c.emit i := rfl

theorem end_scope_aux_extends (fuel : Nat) (c : Compiler) :
    ∃ t, (end_scope_aux fuel c).chunk.instructions = c.chunk.instructions ++ t := by
  induction fuel generalizing c with
  | zero => exact ⟨[], by simp [end_scope_aux]⟩
  | succ fuel ih =>
      rw [end_scope_aux]
      split
      · split
        · obtain ⟨t, ht⟩ := ih { c.emit .Pop with locals := c.locals.dropLast }
          refine ⟨[.Pop] ++ t, ?_⟩
          rw [ht]
          simp [Compiler.emit, Chunk.emit]
        · exact ⟨[], by simp⟩
      · exact ⟨[], by simp⟩

theorem end_scope_extends (c : Compiler) :
    ∃ t, c.end_scope.chunk.instructions = c.chunk.instructions ++ t :=
  end_scope_aux_extends _ _

/-- Compilation only appends instructions: whatever `compile_expr` emits is a
suffix glued after the instructions already in the chunk. -/
theorem compile_expr_extends :
    ∀ (e : Expr) (c c' : Compiler), compile_expr e c = .ok c' →
      ∃ t, c'.chunk.instructions = c.chunk.instructions ++ t := by
  intro e
  induction e with
  | Lit lit =>
      intro c c' h
      cases lit with
      | Float bits =>
          rw [compile_expr] at h
          exact absurd h (by simp [bind, Except.bind])
      | Int n =>
          rw [compile_expr] at h
          cases hc : c.add_constant (Value.Int n) with
          | error e => simp [hc, bind, Except.bind] at h
          | ok p =>
              simp only [hc, bind, Except.bind, Except.ok.injEq] at h
              subst h
              exact ⟨[.LoadConst p.1],
                by rw [emit_instructions, add_constant_chunk_instructions hc]⟩
      | Bool b =>
          rw [compile_expr] at h
          cases hc : c.add_constant (Value.Bool b) with
          | error e => simp [hc, bind, Except.bind] at h
          | ok p =>
              simp only [hc, bind, Except.bind, Except.ok.injEq] at h
              subst h
              exact ⟨[.LoadConst p.1],
                by rw [emit_instructions, add_constant_chunk_instructions hc]⟩
      | Str s =>
          rw [compile_expr] at h
          cases hc : c.add_constant (Value.Str s) with
          | error e => simp [hc, bind, Except.bind] at h
          | ok p =>
              simp only [hc, bind, Except.bind, Except.ok.injEq] at h
              subst h
              exact ⟨[.LoadConst p.1],
                by rw [emit_instructions, add_constant_chunk_instructions hc]⟩
      | Unit =>
          rw [compile_expr] at h
          cases hc : c.add_constant Value.Unit with
          | error e => simp [hc, bind, Except.bind] at h
          | ok p =>
              simp only [hc, bind, Except.bind, Except.ok.injEq] at h
              subst h
              exact ⟨[.LoadConst p.1],
                by rw [emit_instructions, add_constant_chunk_instructions hc]⟩
  | Var name =>
      intro c c' h
      rw [compile_expr] at h
      cases hf : findLocal c.locals name with
      | none => simp [hf] at h
      | some i =>
          simp only [hf, Except.ok.injEq] at h
          subst h
          exact ⟨[.LoadLocal (i % 256)], rfl⟩
  | BinOp op left right ihl ihr =>
      intro c c' h
      rw [compile_expr] at h
      cases h1 : compile_expr left c with
      | error e => simp [h1, bind, Except.bind] at h
      | ok c1 =>
          cases h2 : compile_expr right c1 with
          | error e => simp [h1, h2, bind, Except.bind] at h
          | ok c2 =>
              simp only [h1, h2, bind, Except.bind, Except.ok.injEq] at h
              subst h
              obtain ⟨t1, ht1⟩ := ihl c c1 h1
              obtain ⟨t2, ht2⟩ := ihr c1 c2 h2
              exact ⟨t1 ++ t2 ++ [binop_instr op], by
                rw [emit_instructions, ht2, ht1]; simp⟩
  | Let name value body ihv ihb =>
      intro c c' h
      rw [compile_expr] at h
      cases h1 : compile_expr value c with
      | error e => simp [h1, bind, Except.bind] at h
      | ok c1 =>
          cases h3 : c1.begin_scope.add_local name with
          | error e => simp [h1, h3, bind, Except.bind] at h
          | ok c3 =>
              cases h5 : compile_expr body
                  (c3.emit (.StoreLocal ((c3.locals.length - 1) % 256))) with
              | error e => simp [h1, h3, h5, bind, Except.bind] at h
              | ok c5 =>
                  simp only [h1, h3, h5, bind, Except.bind, Except.ok.injEq] at h
                  subst h
                  obtain ⟨t1, ht1⟩ := ihv c c1 h1
                  obtain ⟨t2, ht2⟩ := ihb _ c5 h5
                  obtain ⟨t3, ht3⟩ := end_scope_extends c5
                  refine ⟨t1 ++ [.StoreLocal ((c3.locals.length - 1) % 256)]
                    ++ t2 ++ t3, ?_⟩
                  rw [ht3, ht2, emit_instructions]
                  have hc3 : c3.chunk = c1.begin_scope.chunk := add_local_chunk h3
                  rw [hc3, show c1.begin_scope.chunk = c1.chunk from rfl, ht1]
                  simp
  | Lambda param body ih =>
      intro c c' h
      have heq := compile_lambda_emits_nothing.1 param body c c' h
      exact ⟨[], by rw [heq]; simp⟩
  | App func arg ihf iha =>
      intro c c' h
      rw [compile_expr] at h
      cases h1 : compile_expr func c with
      | error e => simp [h1, bind, Except.bind] at h
      | ok c1 =>
          cases h2 : compile_expr arg c1 with
          | error e => simp [h1, h2, bind, Except.bind] at h
          | ok c2 =>
              simp only [h1, h2, bind, Except.bind, Except.ok.injEq] at h
              subst h
              obtain ⟨t1, ht1⟩ := ihf c c1 h1
              obtain ⟨t2, ht2⟩ := iha c1 c2 h2
              exact ⟨t1 ++ t2 ++ [.Call 1], by
                rw [emit_instructions, ht2, ht1]; simp⟩
  | If cond tb eb ihc iht ihe =>
      intro c c' h
      rw [compile_expr] at h
      cases h1 : compile_expr cond c with
      | error e => simp [h1, bind, Except.bind] at h
      | ok c1 =>
          cases h2 : compile_expr tb ((c1.emit_jump (.JumpIfFalse 0)).2.emit .Pop) with
          | error e => simp [h1, h2, bind, Except.bind] at h
          | ok c4 =>
              cases h3 : (c4.emit_jump (.Jump 0)).2.patch_jump
                  (c1.emit_jump (.JumpIfFalse 0)).1 with
              | error e => simp [h1, h2, h3, bind, Except.bind] at h
              | ok c6 =>
                  cases h4 : compile_expr eb (c6.emit .Pop) with
                  | error e => simp [h1, h2, h3, h4, bind, Except.bind] at h
                  | ok c8 =>
                      cases h5 : c8.patch_jump (c4.emit_jump (.Jump 0)).1 with
                      | error e => simp [h1, h2, h3, h4, h5, bind, Except.bind] at h
                      | ok c9 =>
                          simp only [h1, h2, h3, h4, h5, bind, Except.bind,
                            Except.ok.injEq] at h
                          subst h
                          obtain ⟨t1, ht1⟩ := ihc c c1 h1
                          obtain ⟨t2, ht2⟩ := iht _ c4 h2
                          obtain ⟨t3, ht3⟩ := ihe _ c8 h4
                          obtain ⟨n1, hn1⟩ := patch_jump_ok_set h3
                          obtain ⟨n2, hn2⟩ := patch_jump_ok_set h5
                          have hC : ((c4.emit_jump (.Jump 0)).2).chunk.instructions =
                              c.chunk.instructions ++
                                (t1 ++ [.JumpIfFalse 0, .Pop] ++ t2 ++ [.Jump 0]) := by
                            rw [emit_jump_snd, emit_instructions, ht2,
                              emit_instructions, emit_jump_snd, emit_instructions, ht1]
                            simp
                          have hj1 : (c1.emit_jump (.JumpIfFalse 0)).1 =
                              c.chunk.instructions.length + t1.length := by
                            rw [emit_jump_fst, ht1, List.length_append]
                          rw [hC, hj1] at hn1
                          obtain ⟨T1, hT1⟩ :=
                            set_extends c.chunk.instructions
                              (t1 ++ [.JumpIfFalse 0, .Pop] ++ t2 ++ [.Jump 0])
                              (c.chunk.instructions.length + t1.length) (by omega) n1
                          rw [hT1] at hn1
                          have hc8 : c8.chunk.instructions =
                              c.chunk.instructions ++ (T1 ++ [.Pop] ++ t3) := by
                            rw [ht3, emit_instructions, hn1]
                            simp
                          have hj2 : c.chunk.instructions.length ≤
                              (c4.emit_jump (.Jump 0)).1 := by
                            rw [emit_jump_fst, ht2, emit_instructions, emit_jump_snd,
                              emit_instructions, ht1]
                            simp
                          rw [hc8] at hn2
                          obtain ⟨T2, hT2⟩ :=
                            set_extends c.chunk.instructions (T1 ++ [.Pop] ++ t3)
                              ((c4.emit_jump (.Jump 0)).1) hj2 n2
                          rw [hT2] at hn2
                          exact ⟨T2, hn2⟩

theorem patch_jump_ok_eq {c : Compiler} {j : Nat} {c' : Compiler}
    (h : c.patch_jump j = .ok c') :
    c.chunk.current_offset - j - 1 ≤ 32767 ∧
    c' = { c with chunk := { c.chunk with
      instructions := c.chunk.instructions.set j
        (match c.chunk.instructions.getD j .Pop with
         | .Jump _ => .Jump (Int.ofNat (c.chunk.current_offset - j - 1))
         | .JumpIfFalse _ => .JumpIfFalse (Int.ofNat (c.chunk.current_offset - j - 1))
         | other => other) } } := by
  rw [Compiler.patch_jump] at h
  simp only [] at h
  split at h
  · exact absurd h (by simp)
  · next hguard =>
      cases h
      exact ⟨by omega, rfl⟩

/-- C6: compiling `If C T E` emits, in order: the code `cc` for `C`; a
`JumpIfFalse` placeholder; `Pop`; the code `tc` for `T`; a `Jump` placeholder;
it then patches the `JumpIfFalse` to target the instruction after the `Jump`
(the else-branch `Pop`), emits that `Pop`, compiles `E` to `ec`, and patches
the `Jump` to target the instruction after `E`.  Each patched operand equals
its target minus (jump site + 1): the `JumpIfFalse` at site
`|c0| + |cc|` holds `|tc| + 2` (targeting the else `Pop` at
`|c0| + |cc| + |tc| + 3`), and the `Jump` at site `|c0| + |cc| + |tc| + 2`
holds `|ec| + 1` (targeting the end of the emitted code) — so under the
spec's jump semantics exactly one branch's code executes per truth value
of `C`. -/
theorem compile_if_layout (cond tb eb : Expr) (c0 cF : Compiler)
    (h : compile_expr (.If cond tb eb) c0 = .ok cF) :
    ∃ (cc tc ec : List Instruction) (c1 c3 c4 c7 c8 : Compiler),
      compile_expr cond c0 = .ok c1 ∧
      c1.chunk.instructions = c0.chunk.instructions ++ cc ∧
      compile_expr tb c3 = .ok c4 ∧
      c3.chunk.instructions =
        c0.chunk.instructions ++ cc ++ [.JumpIfFalse 0, .Pop] ∧
      c4.chunk.instructions = c3.chunk.instructions ++ tc ∧
      compile_expr eb c7 = .ok c8 ∧
      c7.chunk.instructions =
        c0.chunk.instructions ++ cc ++
          [.JumpIfFalse (Int.ofNat (tc.length + 2)), .Pop] ++ tc ++
          [.Jump 0, .Pop] ∧
      c8.chunk.instructions = c7.chunk.instructions ++ ec ∧
      cF.chunk.instructions =
        c0.chunk.instructions ++ cc ++
          [.JumpIfFalse (Int.ofNat (tc.length + 2)), .Pop] ++ tc ++
          [.Jump (Int.ofNat (ec.length + 1)), .Pop] ++ ec ∧
      cF.chunk.instructions.length =
        c0.chunk.instructions.length + cc.length + tc.length + ec.length + 4 := by
  rw [compile_expr] at h
  cases h1 : compile_expr cond c0 with
  | error e => simp [h1, bind, Except.bind] at h
  | ok c1 =>
      cases h2 : compile_expr tb ((c1.emit_jump (.JumpIfFalse 0)).2.emit .Pop) with
      | error e => simp [h1, h2, bind, Except.bind] at h
      | ok c4 =>
          cases h3 : (c4.emit_jump (.Jump 0)).2.patch_jump
              (c1.emit_jump (.JumpIfFalse 0)).1 with
          | error e => simp [h1, h2, h3, bind, Except.bind] at h
          | ok c6 =>
              cases h4 : compile_expr eb (c6.emit .Pop) with
              | error e => simp [h1, h2, h3, h4, bind, Except.bind] at h
              | ok c8 =>
                  cases h5 : c8.patch_jump (c4.emit_jump (.Jump 0)).1 with
                  | error e => simp [h1, h2, h3, h4, h5, bind, Except.bind] at h
                  | ok c9 =>
                      simp only [h1, h2, h3, h4, h5, bind, Except.bind,
                        Except.ok.injEq] at h
                      subst h
                      obtain ⟨t1, ht1⟩ := compile_expr_extends cond c0 c1 h1
                      obtain ⟨t2, ht2⟩ := compile_expr_extends tb _ c4 h2
                      obtain ⟨t3, ht3⟩ := compile_expr_extends eb _ c8 h4
                      -- the state before compiling the then-branch
                      have e3 : ((c1.emit_jump (.JumpIfFalse 0)).2.emit
                          .Pop).chunk.instructions =
                          (c0.chunk.instructions ++ t1) ++
                            Instruction.JumpIfFalse 0 :: [Instruction.Pop] := by
                        rw [emit_instructions, emit_jump_snd, emit_instructions, ht1]
                        simp
                      -- the state holding the un-patched Jump
                      have hP2 : (c4.emit_jump (.Jump 0)).2.chunk.instructions =
                          (c0.chunk.instructions ++ t1) ++
                            Instruction.JumpIfFalse 0 ::
                              ([Instruction.Pop] ++ t2 ++ [Instruction.Jump 0]) := by
                        rw [emit_jump_snd, emit_instructions, ht2, e3]
                        simp
                      have hj1 : (c1.emit_jump (.JumpIfFalse 0)).1 =
                          (c0.chunk.instructions ++ t1).length := by
                        rw [emit_jump_fst, ht1]
                      obtain ⟨hg1, hc6⟩ := patch_jump_ok_eq h3
                      have hoff1 : (c4.emit_jump (.Jump 0)).2.chunk.current_offset -
                          (c1.emit_jump (.JumpIfFalse 0)).1 - 1 = t2.length + 2 := by
                        rw [Chunk.current_offset, hP2, hj1]
                        simp
                        omega
                      have hc6i : c6.chunk.instructions =
                          (c0.chunk.instructions ++ t1) ++
                            Instruction.JumpIfFalse (Int.ofNat (t2.length + 2)) ::
                              ([Instruction.Pop] ++ t2 ++ [Instruction.Jump 0]) := by
                        rw [hc6]
                        simp only [hP2, hj1, getD_append_len, set_append_len]
                        rw [← hj1, hoff1]
                      -- the state before compiling the else-branch
                      have hc7i : (c6.emit .Pop).chunk.instructions =
                          ((c0.chunk.instructions ++ t1) ++
                            Instruction.JumpIfFalse (Int.ofNat (t2.length + 2)) ::
                              ([Instruction.Pop] ++ t2)) ++
                            Instruction.Jump 0 :: [Instruction.Pop] := by
                        rw [emit_instructions, hc6i]
                        simp
                      have hj2 : (c4.emit_jump (.Jump 0)).1 =
                          ((c0.chunk.instructions ++ t1) ++
                            Instruction.JumpIfFalse (Int.ofNat (t2.length + 2)) ::
                              ([Instruction.Pop] ++ t2)).length := by
                        rw [emit_jump_fst, ht2, e3]
                        simp
                      have hc8i : c8.chunk.instructions =
                          ((c0.chunk.instructions ++ t1) ++
                            Instruction.JumpIfFalse (Int.ofNat (t2.length + 2)) ::
                              ([Instruction.Pop] ++ t2)) ++
                            Instruction.Jump 0 :: ([Instruction.Pop] ++ t3) := by
                        rw [ht3, hc7i]
                        simp
                      obtain ⟨hg2, hc9⟩ := patch_jump_ok_eq h5
                      have hoff2 : c8.chunk.current_offset -
                          (c4.emit_jump (.Jump 0)).1 - 1 = t3.length + 1 := by
                        rw [Chunk.current_offset, hc8i, hj2]
                        simp
                        omega
                      have hc9i : c9.chunk.instructions =
                          ((c0.chunk.instructions ++ t1) ++
                            Instruction.JumpIfFalse (Int.ofNat (t2.length + 2)) ::
                              ([Instruction.Pop] ++ t2)) ++
                            Instruction.Jump (Int.ofNat (t3.length + 1)) ::
                              ([Instruction.Pop] ++ t3) := by
                        rw [hc9]
                        simp only [hc8i, hj2, getD_append_len, set_append_len]
                        rw [← hj2, hoff2]
                      refine ⟨t1, t2, t3, c1, _, c4, c6.emit .Pop, c8,
                        rfl, ht1, h2, ?_, ht2, h4, ?_, ht3, ?_, ?_⟩
                      · rw [e3]
                      · rw [hc7i]
                        simp
                      · rw [hc9i]
                        simp
                      · rw [hc9i]
                        simp
                        try omega
/-- The compiler state produced by compiling a concrete `If` expression. -/
def ifDemoResult : Compiler :=
  { chunk := { instructions := [.LoadConst 0, .JumpIfFalse 3, .Pop, .LoadConst 1,
                                .Jump 2, .Pop, .LoadConst 2],
               constants := [.Bool true, .Int 1, .Int 0],
               name := none,
               spans := List.replicate 7 SourceSpan.unknown,
               source := none,
               source_file := none },
    locals := [], scope_depth := 0 }

/-- Witness for C6 at a concrete input: `if true then 1 else 0` compiles to
`[LoadConst 0, JumpIfFalse 3, Pop, LoadConst 1, Jump 2, Pop, LoadConst 2]`
and the layout theorem applies to it. -/
theorem compile_if_layout_witness :
    ∃ (cc tc ec : List Instruction) (c1 c3 c4 c7 c8 : Compiler),
      compile_expr (.Lit (.Bool true)) Compiler.new = .ok c1 ∧
      c1.chunk.instructions = Compiler.new.chunk.instructions ++ cc ∧
      compile_expr (.Lit (.Int 1)) c3 = .ok c4 ∧
      c3.chunk.instructions =
        Compiler.new.chunk.instructions ++ cc ++ [.JumpIfFalse 0, .Pop] ∧
      c4.chunk.instructions = c3.chunk.instructions ++ tc ∧
      compile_expr (.Lit (.Int 0)) c7 = .ok c8 ∧
      c7.chunk.instructions =
        Compiler.new.chunk.instructions ++ cc ++
          [.JumpIfFalse (Int.ofNat (tc.length + 2)), .Pop] ++ tc ++
          [.Jump 0, .Pop] ∧
      c8.chunk.instructions = c7.chunk.instructions ++ ec ∧
      ifDemoResult.chunk.instructions =
        Compiler.new.chunk.instructions ++ cc ++
          [.JumpIfFalse (Int.ofNat (tc.length + 2)), .Pop] ++ tc ++
          [.Jump (Int.ofNat (ec.length + 1)), .Pop] ++ ec ∧
      ifDemoResult.chunk.instructions.length =
        Compiler.new.chunk.instructions.length + cc.length + tc.length +
          ec.length + 4 :=
  compile_if_layout (.Lit (.Bool true)) (.Lit (.Int 1)) (.Lit (.Int 0))
    Compiler.new ifDemoResult rfl

/-! ### Async builder operations (`stdlib/async_ops.rs`) -/

/-- Modelled from the spec: the runtime error taxonomy (`vm.rs` is not in the
provided sources); carries the variants the embedded stdlib sources use. -/
inductive VmError where
  | TypeMismatch (expected got : String)
  | ArityMismatch
  | DivisionByZero
  | UndefinedHost (name : String)
  | StackOverflow
  | NotCallable
  | Runtime (msg : String)

/-- `async_return` from `async_ops.rs`: one argument, wrapped in
`Variant{Async, Pure}`. -/
def async_return (args : List Value) : Except VmError Value :=
  match args with
  | [value] => .ok (.Variant "Async" "Pure" [value])
  | _ => .error (.Runtime
      ("Async.Return expects 1 argument, got " ++ toString args.length))

/-- `async_bind` from `async_ops.rs`: two arguments, wrapped in
`Variant{Async, Bind}`. -/
def async_bind (args : List Value) : Except VmError Value :=
  match args with
  | [computation, binder] => .ok (.Variant "Async" "Bind" [computation, binder])
  | _ => .error (.Runtime "Async.Bind expects 2 arguments")

/-- `async_delay` from `async_ops.rs`: one argument, wrapped in
`Variant{Async, Delay}`. -/
def async_delay (args : List Value) : Except VmError Value :=
  match args with
  | [generator] => .ok (.Variant "Async" "Delay" [generator])
  | _ => .error (.Runtime "Async.Delay expects 1 argument")

/-- `async_return_from` from `async_ops.rs`: returns its single argument
unchanged. -/
def async_return_from (args : List Value) : Except VmError Value :=
  match args with
  | [v] => .ok v
  | _ => .error (.Runtime "Async.ReturnFrom expects 1 argument")

/-- `async_zero` from `async_ops.rs`: ignores its arguments and yields
`Variant{Async, Pure}[Unit]`. -/
def async_zero (_args : List Value) : Except VmError Value :=
  .ok (.Variant "Async" "Pure" [.Unit])

/-- `async_combine` from `async_ops.rs`: two arguments, wrapped in
`Variant{Async, Combine}`. -/
def async_combine (args : List Value) : Except VmError Value :=
  match args with
  | [first, second] => .ok (.Variant "Async" "Combine" [first, second])
  | _ => .error (.Runtime "Async.Combine expects 2 arguments")

/-- Whether a value is a `Variant` whose type name is `"Async"`. -/
def isAsyncVariant : Value → Bool
  | .Variant tn _ _ => tn == "Async"
  | _ => false

/-- C7 counterexample: `ReturnFrom` applied to its declared single argument
returns that argument unchanged — here `Int 5`, which is not a
`Variant{Async, …}` — refuting the claim that every builder operation returns
an `"Async"`-tagged variant. -/
theorem async_return_from_not_tagged :
    async_return_from [Value.Int 5] = .ok (Value.Int 5) ∧
    isAsyncVariant (Value.Int 5) = false :=
  ⟨rfl, rfl⟩

/-- C7 amended: `Return`, `Bind`, `Delay`, `Zero` and `Combine`, applied to
their declared numbers of arguments, return `Variant{Async, …}` values
(`Return`/`Zero` with ctor `Pure` carrying the value or `Unit`; `Bind`,
`Delay`, `Combine` with their ctors carrying the given fields); `ReturnFrom`
returns its argument unchanged, so it yields an `"Async"`-tagged variant only
when it was given one. -/
theorem async_builders_tagged :
    (∀ v, async_return [v] = .ok (.Variant "Async" "Pure" [v])) ∧
    (∀ c k, async_bind [c, k] = .ok (.Variant "Async" "Bind" [c, k])) ∧
    (∀ g, async_delay [g] = .ok (.Variant "Async" "Delay" [g])) ∧
    (∀ args, async_zero args = .ok (.Variant "Async" "Pure" [.Unit])) ∧
    (∀ a b, async_combine [a, b] = .ok (.Variant "Async" "Combine" [a, b])) ∧
    (∀ v, async_return_from [v] = .ok v) :=
  ⟨fun _ => rfl, fun _ _ => rfl, fun _ => rfl, fun _ => rfl,
   fun _ _ => rfl, fun _ => rfl⟩
/-! ### `Async.parallel` (`stdlib/async_ops.rs`, Tokio-backed registration) -/

/-- The task-id extraction of `Async.parallel`: every element of the argument
list must be a task handle (`Value::Async(AsyncValue::Task(id))`); the first
offender aborts with the source's error message. -/
def extract_task_ids : List Value → Except VmError (List Nat)
  | [] => .ok []
  | .AsyncTask id :: rest => (extract_task_ids rest).map (fun ids => id :: ids)
  | _ :: _ => .error (.Runtime "Async.parallel expects list of Async values")

/-- The loop of the task spawned by `Async.parallel`: block on each task id in
input order, pushing results.  `blockOn` abstracts the runtime's
`block_on`, mapping a task id to the terminal result that call returns. -/
def parallel_collect (blockOn : Nat → Except VmError Value) :
    List Nat → Except VmError (List Value)
  | [] => .ok []
  | id :: rest => do
      let v ← blockOn id
      let vs ← parallel_collect blockOn rest
      .ok (v :: vs)

/-- The `Async.parallel` host function from `async_ops.rs`: checks the single
list argument, requires every element to be a task handle, and spawns a task
that blocks on each id in order and returns `vec_to_cons` of the results.  The
outer `Except` is the registration-time check; the inner one is the spawned
task's eventual result (spawning itself is abstracted away). -/
def async_parallel (blockOn : Nat → Except VmError Value) (args : List Value) :
    Except VmError (Except VmError Value) :=
  match args with
  | [tasks] =>
      match tasks.list_to_vec with
      | none => .error (.Runtime "Async.parallel expects list argument")
      | some vs => do
          let ids ← extract_task_ids vs
          .ok ((parallel_collect blockOn ids).map Value.vec_to_cons)
  | _ => .error (.Runtime
      ("Async.parallel expects 1 argument, got " ++ toString args.length))

theorem list_to_vec_vec_to_cons (vs : List Value) :
    (Value.vec_to_cons vs).list_to_vec = some vs := by
  induction vs with
  | nil => rfl
  | cons v vs ih => simp [Value.vec_to_cons, Value.list_to_vec, ih]

theorem extract_task_ids_map (ids : List Nat) :
    extract_task_ids (ids.map Value.AsyncTask) = .ok ids := by
  induction ids with
  | nil => rfl
  | cons id ids ih => simp [extract_task_ids, ih, Except.map]

theorem parallel_collect_ok (blockOn : Nat → Except VmError Value)
    (res : Nat → Value) (ids : List Nat)
    (hall : ∀ id ∈ ids, blockOn id = .ok (res id)) :
    parallel_collect blockOn ids = .ok (ids.map res) := by
  induction ids with
  | nil => rfl
  | cons id ids ih =>
      have h1 := hall id (by simp)
      have h2 := ih (fun i hi => hall i (by simp [hi]))
      simp [parallel_collect, h1, h2, bind, Except.bind]

/-- C8: for an input list of task handles `[t0 .. t(n-1)]` whose tasks
eventually complete with results `res`, `Async.parallel` produces a task whose
result is the cons-list holding at index `i` the result of task `tᵢ` — result
order follows input order regardless of completion order, because the spawned
loop blocks on the ids in input order — and `Async.parallel` applied to the
empty list produces a task whose result is `Nil`. -/
theorem async_parallel_preserves_order (blockOn : Nat → Except VmError Value)
    (res : Nat → Value) (ids : List Nat)
    (hall : ∀ id ∈ ids, blockOn id = .ok (res id)) :
    async_parallel blockOn [Value.vec_to_cons (ids.map Value.AsyncTask)] =
      .ok (.ok (Value.vec_to_cons (ids.map res))) ∧
    async_parallel blockOn [Value.Nil] = .ok (.ok Value.Nil) := by
  constructor
  · simp [async_parallel, list_to_vec_vec_to_cons, extract_task_ids_map,
      parallel_collect_ok blockOn res ids hall, bind, Except.bind, Except.map]
  · rfl

/-- Witness for C8 at a concrete input: three tasks with ids `[3, 1, 2]`
whose results are their ids as ints come back in input order. -/
theorem async_parallel_preserves_order_witness :
    async_parallel (fun id => .ok (.Int id))
        [Value.vec_to_cons ([3, 1, 2].map Value.AsyncTask)] =
      .ok (.ok (Value.vec_to_cons ([3, 1, 2].map (fun id => Value.Int id)))) ∧
    async_parallel (fun id => .ok (.Int id)) [Value.Nil] = .ok (.ok Value.Nil) :=
  async_parallel_preserves_order (fun id => .ok (.Int id))
    (fun id => .Int id) [3, 1, 2] (fun _ _ => rfl)

/-! ### The async runtime (`async_runtime.rs`) -/

/-- `AsyncState` from `async_types.rs`. -/
inductive AsyncState where
  | Pending
  | Ready (v : Value)
  | Failed (msg : String)
  | Cancelled

/-- `AsyncRuntime::poll` from `async_runtime.rs`: non-blocking lookup in the
shared task-state map (modelled as a function from task id to optional
state); an unknown id yields the synthetic `Failed("Unknown task: …")` state
(`TaskId` displays as `Task(<id>)`). -/
def poll (task_states : Nat → Option AsyncState) (task_id : Nat) : AsyncState :=
  (task_states task_id).getD
    (.Failed ("Unknown task: Task(" ++ toString task_id ++ ")"))

/-- Removal of a task entry from the state map (`HashMap::remove`). -/
def remove_task (m : Nat → Option AsyncState) (id : Nat) :
    Nat → Option AsyncState :=
  fun x => if x = id then none else m x

/-- The spin loop of `AsyncRuntime::block_on` from `async_runtime.rs`:
`snaps k` is the contents of the shared map at the k-th poll (the worker
thread may update it between polls); on `Pending` the loop sleeps briefly and
polls again; on a terminal state it removes the entry and returns.  `fuel`
bounds the modelled iterations; `none` means no terminal state was observed
within them (the source loops forever). -/
def block_on_loop (snaps : Nat → (Nat → Option AsyncState)) (task_id : Nat) :
    Nat → Nat → Option (Except VmError Value × (Nat → Option AsyncState))
  | 0, _ => none
  | fuel + 1, k =>
    match poll (snaps k) task_id with
    | .Pending => block_on_loop snaps task_id fuel (k + 1)
    | .Ready v => some (.ok v, remove_task (snaps k) task_id)
    | .Failed e => some (.error (.Runtime e), remove_task (snaps k) task_id)
    | .Cancelled =>
        some (.error (.Runtime "Task was cancelled"), remove_task (snaps k) task_id)

/-- `AsyncRuntime::block_on` from `async_runtime.rs`, started at the first
poll. -/
def block_on (snaps : Nat → (Nat → Option AsyncState)) (task_id fuel : Nat) :
    Option (Except VmError Value × (Nat → Option AsyncState)) :=
  block_on_loop snaps task_id fuel 0

/-- The value/error `block_on` returns for a terminal state (`none` for
`Pending`). -/
def terminal_result : AsyncState → Option (Except VmError Value)
  | .Pending => none
  | .Ready v => some (.ok v)
  | .Failed e => some (.error (.Runtime e))
  | .Cancelled => some (.error (.Runtime "Task was cancelled"))

theorem block_on_loop_first_terminal (snaps : Nat → (Nat → Option AsyncState))
    (task_id : Nat) :
    ∀ (fuel k0 k : Nat) (r : Except VmError Value), k0 ≤ k → k < k0 + fuel →
      (∀ j, k0 ≤ j → j < k → poll (snaps j) task_id = .Pending) →
      terminal_result (poll (snaps k) task_id) = some r →
      block_on_loop snaps task_id fuel k0 = some (r, remove_task (snaps k) task_id) := by
  intro fuel
  induction fuel with
  | zero => intro k0 k r h1 h2; omega
  | succ fuel ih =>
      intro k0 k r h1 h2 hpend hterm
      rw [block_on_loop]
      by_cases hk : k = k0
      · subst hk
        cases hs : poll (snaps k) task_id with
        | Pending => rw [hs] at hterm; exact absurd hterm (by simp [terminal_result])
        | Ready v => rw [hs] at hterm; cases hterm; rfl
        | Failed e => rw [hs] at hterm; cases hterm; rfl
        | Cancelled => rw [hs] at hterm; cases hterm; rfl
      · have hp0 : poll (snaps k0) task_id = .Pending :=
          hpend k0 (le_refl _) (by omega)
        rw [hp0]
        exact ih (k0 + 1) k r (by omega) (by omega)
          (fun j hj1 hj2 => hpend j (by omega) hj2) hterm

theorem block_on_loop_converse (snaps : Nat → (Nat → Option AsyncState))
    (task_id : Nat) :
    ∀ (fuel k0 : Nat) (r : Except VmError Value) (m : Nat → Option AsyncState),
      block_on_loop snaps task_id fuel k0 = some (r, m) →
      ∃ k, k0 ≤ k ∧ (∀ j, k0 ≤ j → j < k → poll (snaps j) task_id = .Pending) ∧
        terminal_result (poll (snaps k) task_id) = some r ∧
        m = remove_task (snaps k) task_id := by
  intro fuel
  induction fuel with
  | zero => intro k0 r m h; exact absurd h (by rw [block_on_loop]; simp)
  | succ fuel ih =>
      intro k0 r m h
      rw [block_on_loop] at h
      cases hs : poll (snaps k0) task_id with
      | Pending =>
          rw [hs] at h
          obtain ⟨k, hk1, hk2, hk3, hk4⟩ := ih (k0 + 1) r m h
          refine ⟨k, by omega, ?_, hk3, hk4⟩
          intro j hj1 hj2
          by_cases hj : j = k0
          · subst hj; exact hs
          · exact hk2 j (by omega) hj2
      | Ready v =>
          rw [hs] at h
          cases h
          exact ⟨k0, le_refl _, fun j hj1 hj2 => by omega, by rw [hs]; rfl, rfl⟩
      | Failed e =>
          rw [hs] at h
          cases h
          exact ⟨k0, le_refl _, fun j hj1 hj2 => by omega, by rw [hs]; rfl, rfl⟩
      | Cancelled =>
          rw [hs] at h
          cases h
          exact ⟨k0, le_refl _, fun j hj1 hj2 => by omega, by rw [hs]; rfl, rfl⟩

/-- C9: `poll` of an id with no stored state returns the synthetic
`Failed("Unknown task: …")` state instead of blocking; `block_on` returns
`Ok(v)` exactly when the first terminal state it observes is `Ready(v)`,
removing the task entry, and returns an error when that first terminal state
is `Failed` or `Cancelled`. -/
theorem block_on_poll_spec :
    (∀ (states : Nat → Option AsyncState) (id : Nat), states id = none →
       poll states id = .Failed ("Unknown task: Task(" ++ toString id ++ ")")) ∧
    (∀ snaps id fuel k v, k < fuel →
       (∀ j, j < k → poll (snaps j) id = .Pending) →
       poll (snaps k) id = .Ready v →
       block_on snaps id fuel = some (.ok v, remove_task (snaps k) id)) ∧
    (∀ snaps id fuel k e, k < fuel →
       (∀ j, j < k → poll (snaps j) id = .Pending) →
       poll (snaps k) id = .Failed e →
       block_on snaps id fuel =
         some (.error (.Runtime e), remove_task (snaps k) id)) ∧
    (∀ snaps id fuel k, k < fuel →
       (∀ j, j < k → poll (snaps j) id = .Pending) →
       poll (snaps k) id = .Cancelled →
       block_on snaps id fuel =
         some (.error (.Runtime "Task was cancelled"), remove_task (snaps k) id)) ∧
    (∀ snaps id fuel v m, block_on snaps id fuel = some (.ok v, m) →
       ∃ k, (∀ j, j < k → poll (snaps j) id = .Pending) ∧
         poll (snaps k) id = .Ready v ∧ m = remove_task (snaps k) id) := by
  refine ⟨?_, ?_, ?_, ?_, ?_⟩
  · intro states id h
    simp [poll, h]
  · intro snaps id fuel k v hk hpend hready
    exact block_on_loop_first_terminal snaps id fuel 0 k _ (by omega) (by omega)
      (fun j _ hj => hpend j hj) (by rw [hready]; rfl)
  · intro snaps id fuel k e hk hpend hfail
    exact block_on_loop_first_terminal snaps id fuel 0 k _ (by omega) (by omega)
      (fun j _ hj => hpend j hj) (by rw [hfail]; rfl)
  · intro snaps id fuel k hk hpend hcanc
    exact block_on_loop_first_terminal snaps id fuel 0 k _ (by omega) (by omega)
      (fun j _ hj => hpend j hj) (by rw [hcanc]; rfl)
  · intro snaps id fuel v m h
    obtain ⟨k, hk1, hk2, hk3, hk4⟩ := block_on_loop_converse snaps id fuel 0 _ m h
    refine ⟨k, fun j hj => hk2 j (by omega) hj, ?_, hk4⟩
    cases hs : poll (snaps k) id with
    | Pending => rw [hs] at hk3; exact absurd hk3 (by simp [terminal_result])
    | Ready w =>
        rw [hs] at hk3
        simp [terminal_result] at hk3
        rw [hk3]
    | Failed e => rw [hs] at hk3; exact absurd hk3 (by simp [terminal_result])
    | Cancelled => rw [hs] at hk3; exact absurd hk3 (by simp [terminal_result])

/-- A concrete snapshot sequence: task 1 is pending at the first poll and
ready with `Int 42` from the second on. -/
def demoSnaps : Nat → (Nat → Option AsyncState) :=
  fun k =>
    if k = 0 then (fun id => if id = 1 then some .Pending else none)
    else (fun id => if id = 1 then some (.Ready (Value.Int 42)) else none)

/-- Witness for C9 at concrete inputs: polling an absent id yields the
synthetic failure, and blocking on task 1 over `demoSnaps` returns `Int 42`
and removes the entry. -/
theorem block_on_poll_spec_witness :
    poll (fun _ => none) 7 =
      .Failed ("Unknown task: Task(" ++ toString 7 ++ ")") ∧
    block_on demoSnaps 1 3 =
      some (.ok (Value.Int 42), remove_task (demoSnaps 1) 1) :=
  ⟨block_on_poll_spec.1 (fun _ => none) 7 rfl,
   block_on_poll_spec.2.1 demoSnaps 1 3 1 (Value.Int 42) (by norm_num)
     (fun j hj => by interval_cases j; rfl) rfl⟩
/-! ### Map stdlib (`stdlib/map.rs`) -/

/-- The contents of one shared map object (the `HashMap<String, Value>` behind
`Arc<Mutex<…>>` in `Value::Map`), modelled as a key→value function. -/
abbrev MapContents := String → Option Value

/-- The heap of shared map objects: `Value.Map r` refers to slot `r`. -/
abbrev MapStore := List MapContents

/-- `HashMap::insert` on cloned contents. -/
def insert_entry (m : MapContents) (k : String) (v : Value) : MapContents :=
  fun x => if x = k then some v else m x

/-- `HashMap::remove` on cloned contents. -/
def remove_entry (m : MapContents) (k : String) : MapContents :=
  fun x => if x = k then none else m x

/-- `map_add` from `map.rs`: requires a string key and a `Map` value; clones
the referenced contents, inserts the pair, and wraps the clone in a freshly
allocated reference (`Arc::new(Mutex::new(new_map))` = a new store slot).  A
dangling reference cannot arise under `Arc` semantics and is modelled as a
runtime error. -/
def map_add (key value m : Value) (store : MapStore) :
    Except VmError (Value × MapStore) :=
  match key.as_str with
  | none => .error (.TypeMismatch "string" key.type_name)
  | some key_str =>
    match m with
    | .Map r =>
        match store[r]? with
        | some contents =>
            .ok (.Map store.length, store ++ [insert_entry contents key_str value])
        | none => .error (.Runtime "invalid map reference")
    | _ => .error (.TypeMismatch "map" m.type_name)

/-- `map_remove` from `map.rs`: same shape as `map_add` with
`HashMap::remove` on the cloned contents. -/
def map_remove (key m : Value) (store : MapStore) :
    Except VmError (Value × MapStore) :=
  match key.as_str with
  | none => .error (.TypeMismatch "string" key.type_name)
  | some key_str =>
    match m with
    | .Map r =>
        match store[r]? with
        | some contents =>
            .ok (.Map store.length, store ++ [remove_entry contents key_str])
        | none => .error (.Runtime "invalid map reference")
    | _ => .error (.TypeMismatch "map" m.type_name)

/-- C10: `Map.add` and `Map.remove` are persistent at the public interface:
for a map reference `r` live in the store, each returns a freshly allocated
`Map` value (the new slot `store.length`, distinct from `r` and from every
live reference), and the contents of every pre-existing map object — the
input map included — are exactly the same after the call as before it. -/
theorem map_add_remove_persistent (store : MapStore) (r : Nat) (k : String)
    (v : Value) (contents : MapContents) (hr : store[r]? = some contents) :
    map_add (.Str k) v (.Map r) store =
      .ok (.Map store.length, store ++ [insert_entry contents k v]) ∧
    map_remove (.Str k) (.Map r) store =
      .ok (.Map store.length, store ++ [remove_entry contents k]) ∧
    r ≠ store.length ∧
    (∀ r', r' < store.length →
      (store ++ [insert_entry contents k v])[r']? = store[r']?) ∧
    (∀ r', r' < store.length →
      (store ++ [remove_entry contents k])[r']? = store[r']?) := by
  have hrlt : r < store.length := by
    by_contra hge
    rw [List.getElem?_eq_none (by omega)] at hr
    exact absurd hr (by simp)
  refine ⟨?_, ?_, by omega, ?_, ?_⟩
  · rw [map_add]
    simp only [Value.as_str, hr]
  · rw [map_remove]
    simp only [Value.as_str, hr]
  · intro r' hr'
    rw [List.getElem?_append, if_pos hr']
  · intro r' hr'
    rw [List.getElem?_append, if_pos hr']

/-- A one-map store holding an empty map at slot 0. -/
def demoStore : MapStore := [fun _ => none]

/-- Witness for C10 at a concrete input: adding and removing on the map at
slot 0 of a one-entry store returns fresh references and leaves slot 0's
contents untouched. -/
theorem map_add_remove_persistent_witness :
    map_add (.Str "a") (.Int 1) (.Map 0) demoStore =
      .ok (.Map demoStore.length,
           demoStore ++ [insert_entry (fun _ => none) "a" (.Int 1)]) ∧
    map_remove (.Str "a") (.Map 0) demoStore =
      .ok (.Map demoStore.length, demoStore ++ [remove_entry (fun _ => none) "a"]) ∧
    (0 : Nat) ≠ demoStore.length ∧
    (∀ r', r' < demoStore.length →
      (demoStore ++ [insert_entry (fun _ => none) "a" (.Int 1)])[r']? =
        demoStore[r']?) ∧
    (∀ r', r' < demoStore.length →
      (demoStore ++ [remove_entry (fun _ => none) "a"])[r']? = demoStore[r']?) :=
  map_add_remove_persistent demoStore 0 "a" (.Int 1) (fun _ => none) rfl
end Fusabi
